import Mathlib

/-!
A shallow embedding of the row-generation engine of mysql_data_generator
(`src/generation/generator.ts`): the `Generator` class with its target
computation, batch loop, stall detection, foreign-key resolution and
per-column value synthesis, together with proofs of the behavioural
properties stated in the specification.

Database effects and randomness are determinized: a `Connector` records
the answers the database would return to each call, a `Draw` records the
results of the random primitives consumed by one cell, and every
observable action of the engine is recorded in a trace of `Event`s.
-/

namespace MySqlDataGen

/-- A cell value as produced by the generator.  Distinct constructors keep
track of which synthesis primitive produced the value (`uuidV` for
`uuid4`, `strV` for `Randomizer.randomString`, numeric constructors for
the numeric primitives); `null` is an explicit SQL NULL assignment and
`undef` models a JavaScript `undefined` read (an out-of-range index into
a foreign-key pool). -/
inductive Value where
  | null
  | undef
  | intV (n : Int)
  | floatV (q : ℚ)
  | strV (s : String)
  | uuidV (s : String)
  | bitsV (n : Nat)
  | dateV (t : Int)
deriving DecidableEq

/-- A foreign-key reference of a column (`column.foreignKey` in
`generator.ts`): the referenced table and column plus an optional
`where` filter. -/
structure ForeignKey where
  table : String
  column : String
  «where» : Option String := none
deriving DecidableEq

/-- The polymorphic `values` override of a column: a literal array of
values, a string key into the schema-wide named pools, or an
object mapping literal string values to integer weights. -/
inductive ValuesSpec where
  | literal (vs : List Value)
  | named (key : String)
  | weighted (ws : List (String × Nat))
deriving DecidableEq

/-- The `options` bag of a column descriptor, with the fields the
generator reads: `nullable`, `unique`, `autoIncrement` and the numeric
`min`/`max` bounds (dates are modelled as integer timestamps). -/
structure ColumnOptions where
  nullable : Bool := false
  unique : Bool := false
  autoIncrement : Bool := false
  min : Int := 0
  max : Int := 0
deriving DecidableEq

/-- A column descriptor: name, generator tag (the string the `switch` in
`generateData` dispatches on), options, optional foreign key and optional
`values` override. -/
structure Column where
  name : String
  generator : String
  options : ColumnOptions
  foreignKey : Option ForeignKey := none
  values : Option ValuesSpec := none
deriving DecidableEq

/-- The table descriptor consumed by `Generator` (`BaseTable` in
`generator.ts`): name, the deprecated `lines` field, the ordered columns,
optional `before`/`after` raw-SQL hooks, and the `maxLines`/`addLines`
row-count targets. -/
structure TableDescriptor where
  name : String
  lines : Option Nat := none
  columns : List Column
  before : Option (List String) := none
  after : Option (List String) := none
  maxLines : Option Nat := none
  addLines : Option Nat := none

/-- The slice of the `Schema` object the generator reads:
`schema.maxCharLength` (process-wide string-length ceiling) and
`schema.values` (the shared named value pools). -/
structure Schema where
  maxCharLength : Nat
  values : String → List Value

/-- The random draws one cell synthesis may consume: up to three
`Randomizer.randomInt` results (`r1`, `r2`, `r3`, consumed in source
order), one `Randomizer.randomFloat` fraction, the `Math.random()` result
feeding the nullable-null roll (`roll`), the `Math.random()` result of the
`enum` branch (`enumRoll`), the current clock (`now`, for the open-ended
date bound), the auto-seed fed to `uuid4`, and the character source of
`Randomizer.randomString`. -/
structure Draw where
  r1 : Nat := 0
  r2 : Nat := 0
  r3 : Nat := 0
  rfloat : ℚ := 0
  roll : ℚ := 1
  enumRoll : ℚ := 0
  now : Int := 0
  uuidSeed : Nat := 0
  chars : Nat → Char := fun _ => 'a'

namespace Randomizer

/-- Modelled from the spec: `Randomizer.randomInt` (the `randomizer.ts`
module is absent from `src/`) returns a uniformly distributed integer in
`[lo, hi]` inclusive; the oracle `r` selects the outcome. -/
def randomInt (lo hi : Int) (r : Nat) : Int :=
  if hi < lo then lo else lo + ((r % (hi - lo + 1).toNat : Nat) : Int)

/-- Modelled from the spec: `Randomizer.randomBit` returns a random bit
pattern with the given number of bits. -/
def randomBit (bits : Int) (r : Nat) : Nat :=
  r % 2 ^ bits.toNat

/-- Modelled from the spec: `Randomizer.randomFloat` returns a uniform
random real in `[lo, hi]`; the oracle's fractional part selects it. -/
def randomFloat (lo hi : Int) (r : ℚ) : ℚ :=
  lo + (hi - lo) * (r - ⌊r⌋)

/-- Modelled from the spec: `Randomizer.randomDate` returns a uniform
random instant between the two bounds (timestamps). -/
def randomDate (lo hi : Int) (r : Nat) : Int :=
  randomInt lo hi r

/-- Modelled from the spec: `Randomizer.randomString` returns a random
string of exactly the given length, drawing characters from the oracle. -/
def randomString (len : Int) (cs : Nat → Char) : String :=
  String.mk ((List.range len.toNat).map cs)

end Randomizer

/-- The hexadecimal digit of a residue modulo 16. -/
def hexDigit (n : Nat) : Char := Nat.digitChar (n % 16)

/-- Modelled from the spec: `uuid4` of the external `random-js` library
produces a random version-4 UUID string
(`xxxxxxxx-xxxx-4xxx-yxxx-xxxxxxxxxxxx` with `y` in `8..b`); the seed
supplies the 30 free nibbles and the variant bits. -/
def uuid4Str (seed : Nat) : String :=
  let h := fun i => hexDigit (seed / 16 ^ i)
  String.mk ([h 0, h 1, h 2, h 3, h 4, h 5, h 6, h 7] ++ ['-'] ++
    [h 8, h 9, h 10, h 11] ++ ['-'] ++
    ['4', h 12, h 13, h 14] ++ ['-'] ++
    [hexDigit (8 + seed / 16 ^ 30 % 4), h 15, h 16, h 17] ++ ['-'] ++
    [h 18, h 19, h 20, h 21, h 22, h 23, h 24, h 25, h 26, h 27, h 28, h 29])

/-- Whether a character is a lowercase hexadecimal digit. -/
def isHexChar (c : Char) : Bool := (List.range 16).any (fun n => Nat.digitChar n == c)

/-- Syntactic check for a version-4 UUID string: 36 characters, dashes at
positions 8, 13, 18 and 23, version nibble `4`, variant nibble in
`8..b`, all remaining characters hexadecimal. -/
def isUuid4 (s : String) : Bool :=
  match s.toList with
  | a0 :: a1 :: a2 :: a3 :: a4 :: a5 :: a6 :: a7 :: d1 :: b0 :: b1 :: b2 :: b3 :: d2 ::
    v0 :: c0 :: c1 :: c2 :: d3 :: y0 :: e0 :: e1 :: e2 :: d4 :: f0 :: f1 :: f2 :: f3 ::
    f4 :: f5 :: f6 :: f7 :: f8 :: f9 :: f10 :: f11 :: [] =>
    d1 = '-' && d2 = '-' && d3 = '-' && d4 = '-' && v0 = '4' &&
    (y0 = '8' || y0 = '9' || y0 = 'a' || y0 = 'b') &&
    [a0, a1, a2, a3, a4, a5, a6, a7, b0, b1, b2, b3, c0, c1, c2,
     e0, e1, e2, f0, f1, f2, f3, f4, f5, f6, f7, f8, f9, f10, f11].all isHexChar
  | _ => false

/-- The post-synthesis nullable step of `generateData`: when the column is
nullable and the `Math.random()` roll is at most `0.1`, the value just
synthesized is replaced by SQL NULL. -/
def nullRoll (c : Column) (d : Draw) (v : Value) : Value :=
  if c.options.nullable = true ∧ d.roll ≤ (1 : ℚ) / 10 then Value.null else v

/-- The `switch (column.generator)` of `generateData`, lines 126-218 of
`generator.ts`: given the schema, the column and the cell's random draws,
return the value assigned to `row[column.name]`, or `none` for an
unrecognized tag (the `switch` falls through without assigning). -/
def genValue (sch : Schema) (c : Column) (d : Draw) : Option Value :=
  match c.generator with
  | "bit" =>
    some (nullRoll c d (Value.bitsV (Randomizer.randomBit c.options.max d.r1)))
  | "tinyint" =>
    some (nullRoll c d (Value.intV (Randomizer.randomInt c.options.min c.options.max d.r1)))
  | "bool" | "boolean" =>
    some (nullRoll c d (Value.intV (Randomizer.randomInt 0 1 d.r1)))
  | "smallint" =>
    some (nullRoll c d (Value.intV (Randomizer.randomInt c.options.min c.options.max d.r1)))
  | "mediumint" =>
    some (nullRoll c d (Value.intV (Randomizer.randomInt c.options.min c.options.max d.r1)))
  | "int" | "integer" | "bigint" =>
    some (nullRoll c d (Value.intV (Randomizer.randomInt c.options.min c.options.max d.r1)))
  | "decimal" | "dec" | "float" | "double" =>
    some (nullRoll c d (Value.floatV (Randomizer.randomFloat c.options.min c.options.max d.rfloat)))
  | "date" | "datetime" | "timestamp" =>
    let lo : Int := if c.options.min ≠ 0 then c.options.min else 0
    let hi : Int := if c.options.max ≠ 0 then c.options.max else d.now
    some (nullRoll c d (Value.dateV (Randomizer.randomDate lo hi d.r1)))
  | "time" =>
    let hours := Randomizer.randomInt (-838) 838 d.r1
    let minutes := Randomizer.randomInt 0 59 d.r2
    let seconds := Randomizer.randomInt 0 59 d.r3
    some (nullRoll c d (Value.strV (toString hours ++ ":" ++ toString minutes ++ ":" ++ toString seconds)))
  | "year" =>
    some (nullRoll c d (Value.intV (Randomizer.randomInt c.options.min c.options.max d.r1)))
  | "varchar" | "char" | "binary" | "varbinary" =>
    if c.options.max ≥ 36 ∧ c.options.unique = true then
      some (Value.uuidV (uuid4Str d.uuidSeed))
    else
      some (nullRoll c d (Value.strV (Randomizer.randomString
        (Randomizer.randomInt c.options.min (min (sch.maxCharLength : Int) c.options.max) d.r1)
        d.chars)))
  | "tinyblob" =>
    some (nullRoll c d (Value.strV (Randomizer.randomString (Randomizer.randomInt 0 10 d.r1) d.chars)))
  | "text" | "mediumtext" | "longtext" =>
    some (nullRoll c d (Value.strV (Randomizer.randomString
      (Randomizer.randomInt 0 (min (sch.maxCharLength : Int) c.options.max) d.r1) d.chars)))
  | "blob" | "mediumblob" | "longblob" =>
    some (nullRoll c d (Value.strV (Randomizer.randomString
      (Randomizer.randomInt 0 (min (sch.maxCharLength : Int) c.options.max) d.r1) d.chars)))
  | "set" =>
    some (nullRoll c d (Value.bitsV (Randomizer.randomBit c.options.max d.r1)))
  | "enum" =>
    if c.options.nullable = true then
      some (Value.intV ⌊d.enumRoll * ((c.options.max : ℚ) + 1)⌋)
    else
      some (Value.intV (⌊d.enumRoll * (c.options.max : ℚ)⌋ + 1))
  | _ => none

/-- A generated row: the JavaScript object `row` of `generateData`,
modelled as the ordered list of assignments `row[key] = value` it
received.  A later assignment to the same key overwrites an earlier
one, which `getCell` honours by preferring later entries. -/
abbrev Row := List (String × Value)

/-- Record the assignment `row[k] = v`. -/
def setCell (row : Row) (k : String) (v : Value) : Row := row ++ [(k, v)]

/-- Read `row[key]`: the value of the last assignment to `key`, if any. -/
def getCell : Row → String → Option Value
  | [], _ => none
  | (k, v) :: rest, key =>
    match getCell rest key with
    | some w => some w
    | none => if k = key then some v else none

/-- The key under which a column's foreign-key pool is stored:
`` `${column.name}_${foreignKey.table}_${foreignKey.column}` ``. -/
def fkKey (colName : String) (fk : ForeignKey) : String :=
  colName ++ "_" ++ fk.table ++ "_" ++ fk.column

/-- The `column.values` override branch of the row loop (lines 105-120 of
`generator.ts`): pick uniformly from the literal array, from the named
schema pool, or from the pool obtained by repeating each key of a weight
map as many times as its weight.  An out-of-range pick (empty pool) reads
`undefined`. -/
def pickValue (sch : Schema) (vs : ValuesSpec) (d : Draw) : Value :=
  match vs with
  | ValuesSpec.literal l =>
    match l.get? (Randomizer.randomInt 0 ((l.length : Int) - 1) d.r1).toNat with
    | some v => v
    | none => Value.undef
  | ValuesSpec.named key =>
    let pool := sch.values key
    match pool.get? (Randomizer.randomInt 0 ((pool.length : Int) - 1) d.r1).toNat with
    | some v => v
    | none => Value.undef
  | ValuesSpec.weighted ws =>
    let weightedPool := (ws.map (fun p => List.replicate p.2 p.1)).flatten
    match weightedPool.get? (Randomizer.randomInt 0 ((weightedPool.length : Int) - 1) d.r1).toNat with
    | some v => Value.strV v
    | none => Value.undef

/-- One column of the row loop, lines 102-219 of `generator.ts`:
auto-increment columns are skipped, a `values` override wins over
everything, a foreign-key column takes the pool entry at the row's index
within the batch (`foreignKeys[i]`, `undefined` past the end of the
pool), and otherwise the generator switch assigns (or, for an unknown
tag, does not assign). -/
def applyColumn (sch : Schema) (fkMap : String → List Value) (i : Nat) (d : String → Draw)
    (row : Row) (c : Column) : Row :=
  if c.options.autoIncrement = true then row
  else
    match c.values with
    | some vs => setCell row c.name (pickValue sch vs (d c.name))
    | none =>
      match c.foreignKey with
      | some fk =>
        let pool := fkMap (fkKey c.name fk)
        setCell row c.name ((pool.get? i).getD Value.undef)
      | none =>
        match genValue sch c (d c.name) with
        | some v => setCell row c.name v
        | none => row

/-- Build the row at index `i` of the current batch by walking the
columns in order. -/
def buildRow (sch : Schema) (cols : List Column) (fkMap : String → List Value) (i : Nat)
    (d : String → Draw) : Row :=
  cols.foldl (applyColumn sch fkMap i d) []

/-- Build all `runRows` rows of the current batch. -/
def buildRows (sch : Schema) (cols : List Column) (fkMap : String → List Value) (runRows : Nat)
    (d : Nat → String → Draw) : List Row :=
  (List.range runRows).map (fun i => buildRow sch cols fkMap i (d i))

/-- The arguments of one `dbConnector.getValuesForForeignKeys` call, in
source order. -/
structure FetchArgs where
  tableName : String
  columnName : String
  fkTable : String
  fkColumn : String
  runRows : Nat
  unique : Bool
  «where» : Option String
deriving DecidableEq

/-- The determinized `DatabaseConnector`: `countLines` is the row count
the database reports at the start of `generateData`; `fkValues` gives the
pool `getValuesForForeignKeys` returns for a given batch index and call
arguments; `insertRes` gives the row count `insert` reports for a given
batch index and row payload (the connector contract makes it a `Nat`,
i.e. non-negative); `rawQuery` gives the outcome of `executeRawQuery`. -/
structure Connector where
  countLines : Nat
  fkValues : Nat → FetchArgs → List Value
  insertRes : Nat → List Row → Nat
  rawQuery : String → Except String Unit

/-- The observable actions of one `fill` call, in execution order. -/
inductive Event where
  | logEv (msg : String)
  | warnEv (msg : String)
  | emptyTableEv (tableName : String)
  | countLinesEv (tableName : String)
  | fkFetchEv (batch : Nat) (args : FetchArgs)
  | insertEv (batch : Nat) (tableName : String) (rows : List Row) (curBefore : Nat)
  | rawQueryEv (sql : String)
deriving DecidableEq

/-- The message of the starvation error thrown by `getForeignKeyValues`
(the `${table}` interpolation stringifies the descriptor object). -/
def starvationMsg (fk : ForeignKey) : String :=
  "[object Object]: Not enough values available for foreign key " ++ fk.table ++ "." ++ fk.column

/-- The stall warning printed by `generateData` when a batch inserted no
new rows. -/
def stallMsg (tname : String) : String :=
  "Last run did not insert any new rows in " ++ tname

/-- The per-batch progress line `currentNbRows + ' / ' + table.maxLines`
(an absent `maxLines` prints as `undefined`). -/
def progressMsg (cur : Nat) (t : TableDescriptor) : String :=
  toString cur ++ " / " ++ (match t.maxLines with | some n => toString n | none => "undefined")

/-- `Generator.getForeignKeyValues`, lines 37-57 of `generator.ts`: walk
the columns in order; for each foreign-key column fetch `runRows` values
for it, throw if the pool is empty and the column is not nullable, and
otherwise store the pool in the shared map.  Returns the fetch events in
order together with either the updated map or the thrown message. -/
def getForeignKeyValues (conn : Connector) (tname : String) (b : Nat) (runRows : Nat) :
    List Column → (String → List Value) → List Event × Except String (String → List Value)
  | [], m => ([], Except.ok m)
  | c :: rest, m =>
    match c.foreignKey with
    | none => getForeignKeyValues conn tname b runRows rest m
    | some fk =>
      let args : FetchArgs :=
        ⟨tname, c.name, fk.table, fk.column, runRows, c.options.unique, fk.«where»⟩
      let values := conn.fkValues b args
      if values.length = 0 ∧ c.options.nullable = false then
        ([Event.fkFetchEv b args], Except.error (starvationMsg fk))
      else
        let r := getForeignKeyValues conn tname b runRows rest
          (fun k => if k = fkKey c.name fk then values else m k)
        (Event.fkFetchEv b args :: r.1, r.2)

/-- JavaScript truthiness of an optional numeric field: absent and `0`
are both falsy. -/
def truthy (o : Option Nat) : Bool := o.getD 0 != 0

/-- The target row count computed at lines 81-86 of `generator.ts`
(the local variable is also called `maxLines` there): with `addLines`
set, `currentRows + addLines`, clamped to `maxLines` when that is also
set; otherwise `maxLines` when set; otherwise `0`. -/
def computeTarget (t : TableDescriptor) (cur : Nat) : Nat :=
  if truthy t.addLines then
    if truthy t.maxLines then min (cur + t.addLines.getD 0) (t.maxLines.getD 0)
    else cur + t.addLines.getD 0
  else if truthy t.maxLines then t.maxLines.getD 0
  else 0

/-- The `batch:` while loop of `generateData`, lines 87-228 of
`generator.ts`.  Returns the final `currentNbRows` together with the
events of the loop.  One iteration: compute `runRows`, resolve the
foreign-key pools (a throw is caught, warned about and breaks the loop),
build and insert the batch, add the reported count, and break with a
warning when the count did not move (`previousRunRows === currentNbRows`);
otherwise log progress and continue. -/
def batchLoop (sch : Schema) (conn : Connector) (t : TableDescriptor)
    (drawO : Nat → Nat → String → Draw) (target : Nat) (b : Nat) (cur : Nat)
    (fkMap : String → List Value) : Nat × List Event :=
  if h : cur < target then
    match getForeignKeyValues conn t.name b (min 1000 (target - cur)) t.columns fkMap with
    | (evs, Except.error msg) => (cur, evs ++ [Event.warnEv msg])
    | (evs, Except.ok m) =>
      let rows := buildRows sch t.columns m (min 1000 (target - cur)) (drawO b)
      if h2 : cur + conn.insertRes b rows = cur then
        (cur + conn.insertRes b rows,
          evs ++ [Event.insertEv b t.name rows cur, Event.warnEv (stallMsg t.name)])
      else
        let r := batchLoop sch conn t drawO target (b + 1) (cur + conn.insertRes b rows) m
        (r.1, evs ++ [Event.insertEv b t.name rows cur,
          Event.logEv (progressMsg (cur + conn.insertRes b rows) t)] ++ r.2)
  else (cur, [])
termination_by target - cur
decreasing_by show target - (cur + conn.insertRes b rows) < target - cur; omega

/-- `Generator.generateData`, lines 75-229: count the current rows,
compute the target and run the batch loop starting from an empty
foreign-key map. -/
def generateData (sch : Schema) (conn : Connector) (t : TableDescriptor)
    (drawO : Nat → Nat → String → Draw) : Nat × List Event :=
  let r := batchLoop sch conn t drawO (computeTarget t conn.countLines) 0 conn.countLines
    (fun _ => [])
  (r.1, Event.countLinesEv t.name :: r.2)

/-- Run a `before`/`after` hook list: execute the raw statements in
order, stopping at (and propagating) the first failure. -/
def runHooks (conn : Connector) : List String → List Event × Option String
  | [] => ([], none)
  | q :: rest =>
    match conn.rawQuery q with
    | Except.ok _ =>
      let r := runHooks conn rest
      (Event.rawQueryEv q :: r.1, r.2)
    | Except.error m => ([Event.rawQueryEv q], some m)

/-- `Generator.fill`, lines 59-65: optionally empty the table, run the
`before` hooks, generate the data, run the `after` hooks.  A hook failure
propagates to the caller (`Except.error`); the generation phase itself
never throws.  Returns the full event trace and the outcome (the final
row count on success). -/
def fill (sch : Schema) (conn : Connector) (t : TableDescriptor)
    (drawO : Nat → Nat → String → Draw) (reset : Bool) : List Event × Except String Nat :=
  let pre := (if reset then [Event.logEv ("empty: " ++ t.name), Event.emptyTableEv t.name]
    else []) ++ [Event.logEv ("fill: " ++ t.name)]
  match runHooks conn (t.before.getD []) with
  | (bevs, some e) => (pre ++ bevs, Except.error e)
  | (bevs, none) =>
    let g := generateData sch conn t drawO
    match runHooks conn (t.after.getD []) with
    | (aevs, some e) => (pre ++ bevs ++ g.2 ++ aevs, Except.error e)
    | (aevs, none) => (pre ++ bevs ++ g.2 ++ aevs, Except.ok g.1)

/-- Whether an event is an `insert` call. -/
def isInsertEv : Event → Bool
  | Event.insertEv .. => true
  | _ => false

/-- Whether an event is a `getValuesForForeignKeys` call. -/
def isFkFetchEv : Event → Bool
  | Event.fkFetchEv .. => true
  | _ => false

/-- Spec-modelled backward-compatibility rule for the configuration
layer, which is absent from `src/`: the deprecated `lines` field maps to
`maxLines` when it is the only target field supplied (`BaseTable` in
`generator.ts` only documents the rename). -/
def applyLinesAlias (t : TableDescriptor) : TableDescriptor :=
  if t.maxLines.isNone ∧ t.addLines.isNone then
    { t with maxLines := t.lines }
  else t

/-- The generator tags the `switch` of `generateData` recognizes, except
`enum`. -/
def nonEnumTags : List String :=
  ["bit", "tinyint", "bool", "boolean", "smallint", "mediumint", "int", "integer", "bigint",
   "decimal", "dec", "float", "double", "date", "datetime", "timestamp", "time", "year",
   "varchar", "char", "binary", "varbinary", "tinyblob", "text", "mediumtext", "longtext",
   "blob", "mediumblob", "longblob", "set"]

/-- The tags that share the `varchar` branch of the switch. -/
def varcharFamily : List String := ["varchar", "char", "binary", "varbinary"]

/-- A minimal schema for concrete runs. -/
def sch0 : Schema := ⟨255, fun _ => []⟩

/-- A trivial draw oracle for concrete runs. -/
def drawO0 : Nat → Nat → String → Draw := fun _ _ _ => {}

/-- A table whose target (`maxLines = 10`) is below its 50 current rows. -/
def tOverfull : TableDescriptor := { name := "users", columns := [], maxLines := some 10 }

/-- A connector reporting 50 existing rows whose `insert` reports exactly
the number of rows it was given. -/
def connOverfull : Connector :=
  { countLines := 50, fkValues := fun _ _ => [], insertRes := fun _ rows => rows.length,
    rawQuery := fun _ => Except.ok () }

/-- An empty five-row-target table. -/
def tW1 : TableDescriptor := { name := "w1", columns := [], maxLines := some 5 }

/-- A connector over an empty table whose `insert` reports exactly the
number of rows it was given. -/
def connW1 : Connector :=
  { countLines := 0, fkValues := fun _ _ => [], insertRes := fun _ rows => rows.length,
    rawQuery := fun _ => Except.ok () }

/-- A five-row-target table for the stall scenario. -/
def tW2 : TableDescriptor := { name := "w2", columns := [], maxLines := some 5 }

/-- A connector whose `insert` always reports zero inserted rows. -/
def connStall : Connector :=
  { countLines := 0, fkValues := fun _ _ => [], insertRes := fun _ _ => 0,
    rawQuery := fun _ => Except.ok () }

/-- A non-nullable foreign-key column. -/
def cFkReq : Column :=
  { name := "owner", generator := "int", options := {},
    foreignKey := some ⟨"users", "id", none⟩ }

/-- A table with one non-nullable foreign-key column. -/
def tStarve : TableDescriptor := { name := "pets", columns := [cFkReq], maxLines := some 5 }

/-- A connector whose foreign-key pools are always empty. -/
def connEmptyPool : Connector :=
  { countLines := 0, fkValues := fun _ _ => [], insertRes := fun _ rows => rows.length,
    rawQuery := fun _ => Except.ok () }

/-- A nullable, unique `varchar` column with `max = 36`: the UUID branch. -/
def cUuidNul : Column :=
  { name := "u", generator := "varchar",
    options := { nullable := true, unique := true, min := 0, max := 36 } }

/-- A draw whose nullable roll is `0`, i.e. at or below the `0.1` threshold. -/
def dRoll0 : Draw := { roll := 0 }

/-- A nullable `int` column. -/
def cIntNul : Column :=
  { name := "n", generator := "int", options := { nullable := true, min := 0, max := 5 } }

/-- A table supplying only the deprecated `lines` field. -/
def tLines : TableDescriptor := { name := "legacy", columns := [], lines := some 5 }

/-- A three-row-target table for the batch-size witness. -/
def tW6 : TableDescriptor := { name := "w6", columns := [], maxLines := some 3 }

/-- A three-row-target table that already holds five rows. -/
def tFull : TableDescriptor := { name := "full", columns := [], maxLines := some 3 }

/-- A connector reporting five existing rows. -/
def connFull : Connector :=
  { countLines := 5, fkValues := fun _ _ => [], insertRes := fun _ rows => rows.length,
    rawQuery := fun _ => Except.ok () }

/-- A unique `char` column with `max = 40`: hits the UUID branch. -/
def cW8 : Column :=
  { name := "code", generator := "char", options := { unique := true, min := 1, max := 40 } }

/-- A foreign-key column referencing `users.id`. -/
def cFkW9 : Column :=
  { name := "uid", generator := "int", options := {},
    foreignKey := some ⟨"users", "id", none⟩ }

/-- A connector whose foreign-key pools hold the single value `7`. -/
def connW9 : Connector :=
  { countLines := 0, fkValues := fun _ _ => [Value.intV 7],
    insertRes := fun _ rows => rows.length, rawQuery := fun _ => Except.ok () }

/-- The pool map `getForeignKeyValues` produces for `cFkW9` with `connW9`. -/
def mW9 : String → List Value :=
  fun k => if k = fkKey "uid" ⟨"users", "id", none⟩ then [Value.intV 7] else []

/-- A two-row-target table with one `after` statement. -/
def tW10 : TableDescriptor :=
  { name := "w10", columns := [], maxLines := some 2, after := some ["ANALYZE TABLE w10"] }

theorem Randomizer.randomInt_mem (lo hi : Int) (r : Nat) (h : lo ≤ hi) :
    lo ≤ randomInt lo hi r ∧ randomInt lo hi r ≤ hi := by
  unfold Randomizer.randomInt
  rw [if_neg (by omega)]
  have hpos : 0 < (hi - lo + 1).toNat := by omega
  have := Nat.mod_lt r hpos
  omega

theorem Randomizer.randomString_length (len : Int) (cs : Nat → Char) :
    (randomString len cs).length = len.toNat := by
  simp [Randomizer.randomString, String.length]

theorem isHexChar_hexDigit (n : Nat) : isHexChar (hexDigit n) = true := by
  unfold hexDigit
  have h : n % 16 < 16 := Nat.mod_lt n (by norm_num)
  generalize hm : n % 16 = m at h ⊢
  interval_cases m <;> decide

theorem variant_nibble_ok (x : Nat) :
    (hexDigit (8 + x % 4) = '8' || hexDigit (8 + x % 4) = '9' ||
     hexDigit (8 + x % 4) = 'a' || hexDigit (8 + x % 4) = 'b') = true := by
  have h : x % 4 < 4 := Nat.mod_lt x (by norm_num)
  generalize hm : x % 4 = m at h ⊢
  interval_cases m <;> decide

theorem isUuid4_uuid4Str (seed : Nat) : isUuid4 (uuid4Str seed) = true := by
  have h := variant_nibble_ok (seed / 16 ^ 30)
  simp only [Bool.or_eq_true, decide_eq_true_eq] at h
  simp only [isUuid4, uuid4Str, String.toList, List.cons_append, List.nil_append,
    List.all_cons, List.all_nil, isHexChar_hexDigit, Bool.and_true, Bool.true_and,
    Bool.and_eq_true, decide_eq_true_eq, Bool.or_eq_true, and_true, true_and]
  tauto

theorem getCell_setCell (row : Row) (k key : String) (v : Value) :
    getCell (setCell row k v) key = if k = key then some v else getCell row key := by
  induction row with
  | nil => by_cases h : k = key <;> simp [setCell, getCell, h]
  | cons p rest ih =>
    obtain ⟨k', v'⟩ := p
    simp only [setCell, List.cons_append, List.append_eq, getCell] at ih ⊢
    rw [ih]
    by_cases h : k = key
    · simp [h]
    · cases hg : getCell rest key <;> simp [h, hg]

theorem buildRows_length (sch : Schema) (cols : List Column) (fkMap : String → List Value)
    (runRows : Nat) (d : Nat → String → Draw) :
    (buildRows sch cols fkMap runRows d).length = runRows := by
  simp [buildRows]

theorem getForeignKeyValues_events (conn : Connector) (tname : String) (b rr : Nat) :
    ∀ (cols : List Column) (m : String → List Value) (e : Event),
      e ∈ (getForeignKeyValues conn tname b rr cols m).1 → isFkFetchEv e = true := by
  intro cols
  induction cols with
  | nil => intro m e he; simp [getForeignKeyValues] at he
  | cons c rest ih =>
    intro m e he
    rw [getForeignKeyValues] at he
    cases hfk : c.foreignKey with
    | none => rw [hfk] at he; exact ih _ _ he
    | some fk =>
      rw [hfk] at he
      simp only [] at he
      split at he
      · simp at he
        subst he
        rfl
      · rcases List.mem_cons.mp he with h | h
        · subst h; rfl
        · exact ih _ _ h

theorem getForeignKeyValues_no_insert (conn : Connector) (tname : String) (b rr : Nat)
    (cols : List Column) (m : String → List Value) :
    (getForeignKeyValues conn tname b rr cols m).1.filter isInsertEv = [] := by
  rw [List.filter_eq_nil_iff]
  intro e he
  have h := getForeignKeyValues_events conn tname b rr cols m e he
  cases e <;> simp_all [isFkFetchEv, isInsertEv]

theorem getForeignKeyValues_not_insert (conn : Connector) (tname : String) (b rr : Nat)
    (cols : List Column) (m : String → List Value) (evs : List Event)
    (r : Except String (String → List Value))
    (heq : getForeignKeyValues conn tname b rr cols m = (evs, r))
    (e : Event) (he : e ∈ evs) : isInsertEv e = false := by
  have hmem : e ∈ (getForeignKeyValues conn tname b rr cols m).1 := by rw [heq]; exact he
  have h := getForeignKeyValues_events conn tname b rr cols m e hmem
  cases e <;> simp_all [isFkFetchEv, isInsertEv]

theorem runHooks_events (conn : Connector) :
    ∀ (qs : List String) (e : Event), e ∈ (runHooks conn qs).1 → ∃ q, e = Event.rawQueryEv q := by
  intro qs
  induction qs with
  | nil => intro e he; simp [runHooks] at he
  | cons q rest ih =>
    intro e he
    rw [runHooks] at he
    split at he
    · rcases List.mem_cons.mp he with h | h
      · exact ⟨q, h⟩
      · exact ih _ h
    · simp at he
      exact ⟨q, he⟩

theorem runHooks_ok (conn : Connector) :
    ∀ (qs : List String), (∀ q ∈ qs, conn.rawQuery q = Except.ok ()) →
      runHooks conn qs = (qs.map Event.rawQueryEv, none) := by
  intro qs
  induction qs with
  | nil => intro _; rfl
  | cons q rest ih =>
    intro hq
    rw [runHooks]
    rw [hq q (List.mem_cons_self q rest)]
    rw [ih (fun q' hq' => hq q' (List.mem_cons_of_mem q hq'))]
    simp

theorem batchLoop_noop (sch : Schema) (conn : Connector) (t : TableDescriptor)
    (drawO : Nat → Nat → String → Draw) (target b cur : Nat) (fkMap : String → List Value)
    (h : target ≤ cur) :
    batchLoop sch conn t drawO target b cur fkMap = (cur, []) := by
  rw [batchLoop, dif_neg (by omega)]

theorem batchLoop_starved (sch : Schema) (conn : Connector) (t : TableDescriptor)
    (drawO : Nat → Nat → String → Draw) (target b cur : Nat) (fkMap : String → List Value)
    (evs : List Event) (msg : String) (h : cur < target)
    (heq : getForeignKeyValues conn t.name b (min 1000 (target - cur)) t.columns fkMap
      = (evs, Except.error msg)) :
    batchLoop sch conn t drawO target b cur fkMap = (cur, evs ++ [Event.warnEv msg]) := by
  rw [batchLoop, dif_pos h, heq]

theorem fill_ok_count (sch : Schema) (conn : Connector) (t : TableDescriptor)
    (drawO : Nat → Nat → String → Draw) (reset : Bool) (n : Nat)
    (h : (fill sch conn t drawO reset).2 = Except.ok n) :
    n = (generateData sch conn t drawO).1 := by
  unfold fill at h
  split at h <;>
  · split at h
    · simp at h
    · split at h
      · simp at h
      · simp at h
        omega

theorem batchLoop_fst_le (sch : Schema) (conn : Connector) (t : TableDescriptor)
    (drawO : Nat → Nat → String → Draw) (target : Nat)
    (hins : ∀ b rows, conn.insertRes b rows ≤ rows.length) :
    ∀ (n b cur : Nat) (m : String → List Value), target - cur ≤ n →
      (batchLoop sch conn t drawO target b cur m).1 ≤ max target cur := by
  intro n
  induction n with
  | zero =>
    intro b cur m hn
    rw [batchLoop_noop sch conn t drawO target b cur m (by omega)]
    exact le_max_right target cur
  | succ n ih =>
    intro b cur m hn
    by_cases h : cur < target
    · rw [batchLoop, dif_pos h]
      cases heq : getForeignKeyValues conn t.name b (min 1000 (target - cur)) t.columns m with
      | mk evs r =>
        cases r with
        | error msg => simp [heq]
        | ok m' =>
          simp only [heq]
          split
          · next h2 => simp; omega
          · next h2 =>
            simp only []
            have hle := ih (b + 1)
              (cur + conn.insertRes b (buildRows sch t.columns m' (min 1000 (target - cur)) (drawO b)))
              m' (by omega)
            have hrr := hins b (buildRows sch t.columns m' (min 1000 (target - cur)) (drawO b))
            have hbl := buildRows_length sch t.columns m' (min 1000 (target - cur)) (drawO b)
            simp only [] at hle ⊢
            omega
    · rw [batchLoop_noop sch conn t drawO target b cur m (by omega)]
      exact le_max_right target cur

theorem batchLoop_insert_size (sch : Schema) (conn : Connector) (t : TableDescriptor)
    (drawO : Nat → Nat → String → Draw) (target : Nat) :
    ∀ (n b cur : Nat) (m : String → List Value), target - cur ≤ n →
      ∀ (b' : Nat) (tn : String) (rows : List Row) (curB : Nat),
        Event.insertEv b' tn rows curB ∈ (batchLoop sch conn t drawO target b cur m).2 →
        rows.length = min 1000 (target - curB) := by
  intro n
  induction n with
  | zero =>
    intro b cur m hn b' tn rows curB hmem
    rw [batchLoop_noop sch conn t drawO target b cur m (by omega)] at hmem
    simp at hmem
  | succ n ih =>
    intro b cur m hn b' tn rows curB hmem
    by_cases h : cur < target
    · rw [batchLoop, dif_pos h] at hmem
      cases heq : getForeignKeyValues conn t.name b (min 1000 (target - cur)) t.columns m with
      | mk evs r =>
        cases r with
        | error msg =>
          simp only [heq] at hmem
          rcases List.mem_append.mp hmem with hl | hr
          · have := getForeignKeyValues_not_insert conn t.name b (min 1000 (target - cur))
              t.columns m evs _ heq _ hl
            simp [isInsertEv] at this
          · simp at hr
        | ok m' =>
          simp only [heq] at hmem
          split at hmem
          · next h2 =>
            rcases List.mem_append.mp hmem with hl | hr
            · have := getForeignKeyValues_not_insert conn t.name b (min 1000 (target - cur))
                t.columns m evs _ heq _ hl
              simp [isInsertEv] at this
            · simp at hr
              rcases hr with ⟨_, _, hrows, hcur⟩
              subst hrows
              subst hcur
              rw [buildRows_length]
          · next h2 =>
            rcases List.mem_append.mp hmem with hl | hr
            · rcases List.mem_append.mp hl with hll | hlr
              · have := getForeignKeyValues_not_insert conn t.name b (min 1000 (target - cur))
                  t.columns m evs _ heq _ hll
                simp [isInsertEv] at this
              · simp at hlr
                rcases hlr with ⟨_, _, hrows, hcur⟩
                subst hrows
                subst hcur
                rw [buildRows_length]
            · exact ih (b + 1)
                (cur + conn.insertRes b (buildRows sch t.columns m' (min 1000 (target - cur)) (drawO b)))
                m' (by omega) b' tn rows curB hr
    · rw [batchLoop_noop sch conn t drawO target b cur m (by omega)] at hmem
      simp at hmem

theorem batchLoop_insert_count (sch : Schema) (conn : Connector) (t : TableDescriptor)
    (drawO : Nat → Nat → String → Draw) (target : Nat) :
    ∀ (n b cur : Nat) (m : String → List Value), target - cur ≤ n →
      ((batchLoop sch conn t drawO target b cur m).2.filter isInsertEv).length ≤ target - cur := by
  intro n
  induction n with
  | zero =>
    intro b cur m hn
    rw [batchLoop_noop sch conn t drawO target b cur m (by omega)]
    simp
  | succ n ih =>
    intro b cur m hn
    by_cases h : cur < target
    · rw [batchLoop, dif_pos h]
      cases heq : getForeignKeyValues conn t.name b (min 1000 (target - cur)) t.columns m with
      | mk evs r =>
        cases r with
        | error msg =>
          have hno := getForeignKeyValues_no_insert conn t.name b (min 1000 (target - cur))
            t.columns m
          rw [heq] at hno
          simp only [heq]
          simp [List.filter_append, hno, isInsertEv]
        | ok m' =>
          have hno := getForeignKeyValues_no_insert conn t.name b (min 1000 (target - cur))
            t.columns m
          rw [heq] at hno
          simp only [heq]
          split
          · next h2 =>
            simp [List.filter_append, hno, isInsertEv]
            omega
          · next h2 =>
            have hrec := ih (b + 1)
              (cur + conn.insertRes b (buildRows sch t.columns m' (min 1000 (target - cur)) (drawO b)))
              m' (by omega)
            simp only [] at hrec ⊢
            simp [List.filter_append, hno, isInsertEv]
            omega
    · rw [batchLoop_noop sch conn t drawO target b cur m (by omega)]
      simp

theorem batchLoop_stall_run (sch : Schema) (conn : Connector) (t : TableDescriptor)
    (drawO : Nat → Nat → String → Draw) (target b cur : Nat) (m : String → List Value)
    (evs : List Event) (m' : String → List Value)
    (hz : ∀ b rows, conn.insertRes b rows = 0)
    (h : cur < target)
    (heq : getForeignKeyValues conn t.name b (min 1000 (target - cur)) t.columns m
      = (evs, Except.ok m')) :
    batchLoop sch conn t drawO target b cur m =
      (cur, evs ++ [Event.insertEv b t.name
        (buildRows sch t.columns m' (min 1000 (target - cur)) (drawO b)) cur,
        Event.warnEv (stallMsg t.name)]) := by
  rw [batchLoop, dif_pos h]
  simp only [heq]
  rw [dif_pos (by rw [hz]; omega)]
  simp [hz]

theorem getForeignKeyValues_preserves (conn : Connector) (tname : String) (b rr : Nat)
    (key : String) :
    ∀ (cols : List Column) (m0 : String → List Value) (evs : List Event)
      (m : String → List Value),
      getForeignKeyValues conn tname b rr cols m0 = (evs, Except.ok m) →
      (∀ c' ∈ cols, ∀ fk', c'.foreignKey = some fk' → fkKey c'.name fk' ≠ key) →
      m key = m0 key := by
  intro cols
  induction cols with
  | nil =>
    intro m0 evs m heq hno
    rw [getForeignKeyValues] at heq
    simp at heq
    rw [← heq.2]
  | cons c0 rest ih =>
    intro m0 evs m heq hno
    rw [getForeignKeyValues] at heq
    cases hfk0 : c0.foreignKey with
    | none =>
      rw [hfk0] at heq
      exact ih m0 evs m heq (fun c' hc' => hno c' (List.mem_cons_of_mem c0 hc'))
    | some fk0 =>
      rw [hfk0] at heq
      simp only [] at heq
      split at heq
      · simp at heq
      · have h2 := congrArg Prod.snd heq
        simp only [] at h2
        have heq' : getForeignKeyValues conn tname b rr rest
            (fun k => if k = fkKey c0.name fk0 then
              conn.fkValues b ⟨tname, c0.name, fk0.table, fk0.column, rr, c0.options.unique,
                fk0.«where»⟩ else m0 k)
            = ((getForeignKeyValues conn tname b rr rest
              (fun k => if k = fkKey c0.name fk0 then
                conn.fkValues b ⟨tname, c0.name, fk0.table, fk0.column, rr, c0.options.unique,
                  fk0.«where»⟩ else m0 k)).1, Except.ok m) := by
          rw [← h2]
        have hm := ih _ _ _ heq' (fun c' hc' => hno c' (List.mem_cons_of_mem c0 hc'))
        rw [hm]
        have hne := hno c0 (List.mem_cons_self c0 rest) fk0 hfk0
        rw [if_neg (fun hk => hne hk.symm)]

theorem getForeignKeyValues_ok_map (conn : Connector) (tname : String) (b rr : Nat)
    (c : Column) (fk : ForeignKey) (hfkc : c.foreignKey = some fk) :
    ∀ (cols : List Column) (m0 : String → List Value) (evs : List Event)
      (m : String → List Value),
      c ∈ cols →
      (∀ c' ∈ cols, ∀ fk', c'.foreignKey = some fk' →
        fkKey c'.name fk' = fkKey c.name fk → c' = c) →
      getForeignKeyValues conn tname b rr cols m0 = (evs, Except.ok m) →
      m (fkKey c.name fk)
        = conn.fkValues b ⟨tname, c.name, fk.table, fk.column, rr, c.options.unique, fk.«where»⟩ := by
  intro cols
  induction cols with
  | nil =>
    intro m0 evs m hc
    simp at hc
  | cons c0 rest ih =>
    intro m0 evs m hc hkeys heq
    rw [getForeignKeyValues] at heq
    by_cases hcr : c ∈ rest
    · cases hfk0 : c0.foreignKey with
      | none =>
        rw [hfk0] at heq
        exact ih m0 evs m hcr (fun c' hc' => hkeys c' (List.mem_cons_of_mem c0 hc')) heq
      | some fk0 =>
        rw [hfk0] at heq
        simp only [] at heq
        split at heq
        · simp at heq
        · have h2 := congrArg Prod.snd heq
          simp only [] at h2
          have heq' : getForeignKeyValues conn tname b rr rest
              (fun k => if k = fkKey c0.name fk0 then
                conn.fkValues b ⟨tname, c0.name, fk0.table, fk0.column, rr, c0.options.unique,
                  fk0.«where»⟩ else m0 k)
              = ((getForeignKeyValues conn tname b rr rest
                (fun k => if k = fkKey c0.name fk0 then
                  conn.fkValues b ⟨tname, c0.name, fk0.table, fk0.column, rr, c0.options.unique,
                    fk0.«where»⟩ else m0 k)).1, Except.ok m) := by
            rw [← h2]
          exact ih _ _ _ hcr (fun c' hc' => hkeys c' (List.mem_cons_of_mem c0 hc')) heq'
    · have hc0 : c = c0 := by
        rcases List.mem_cons.mp hc with h | h
        · exact h
        · exact absurd h hcr
      subst hc0
      rw [hfkc] at heq
      simp only [] at heq
      split at heq
      · simp at heq
      · have h2 := congrArg Prod.snd heq
        simp only [] at h2
        have heq' : getForeignKeyValues conn tname b rr rest
            (fun k => if k = fkKey c.name fk then
              conn.fkValues b ⟨tname, c.name, fk.table, fk.column, rr, c.options.unique,
                fk.«where»⟩ else m0 k)
            = ((getForeignKeyValues conn tname b rr rest
              (fun k => if k = fkKey c.name fk then
                conn.fkValues b ⟨tname, c.name, fk.table, fk.column, rr, c.options.unique,
                  fk.«where»⟩ else m0 k)).1, Except.ok m) := by
          rw [← h2]
        have hpres := getForeignKeyValues_preserves conn tname b rr (fkKey c.name fk)
          rest _ _ m heq' ?_
        · rw [hpres, if_pos rfl]
        · intro c' hc' fk' hfk' hkk
          exact absurd (hkeys c' (List.mem_cons_of_mem c hc') fk' hfk' hkk ▸ hc') hcr

theorem applyColumn_other (sch : Schema) (fkMap : String → List Value) (i : Nat)
    (d : String → Draw) (row : Row) (c' : Column) (key : String) (hne : c'.name ≠ key) :
    getCell (applyColumn sch fkMap i d row c') key = getCell row key := by
  unfold applyColumn
  split
  · rfl
  · split
    · rw [getCell_setCell, if_neg hne]
    · split
      · rw [getCell_setCell, if_neg hne]
      · split
        · rw [getCell_setCell, if_neg hne]
        · rfl

theorem foldl_applyColumn_preserves (sch : Schema) (fkMap : String → List Value) (i : Nat)
    (d : String → Draw) (key : String) :
    ∀ (cols : List Column) (row : Row), (∀ c' ∈ cols, c'.name ≠ key) →
      getCell (cols.foldl (applyColumn sch fkMap i d) row) key = getCell row key := by
  intro cols
  induction cols with
  | nil => intro row _; rfl
  | cons c0 rest ih =>
    intro row hno
    rw [List.foldl_cons]
    rw [ih _ (fun c' hc' => hno c' (List.mem_cons_of_mem c0 hc'))]
    exact applyColumn_other sch fkMap i d row c0 key (hno c0 (List.mem_cons_self c0 rest))

theorem buildRow_fk_cell (sch : Schema) (fkMap : String → List Value) (i : Nat)
    (d : String → Draw) (c : Column) (fk : ForeignKey)
    (hval : c.values = none) (hfkc : c.foreignKey = some fk)
    (hai : c.options.autoIncrement = false) :
    ∀ (cols : List Column) (row : Row), c ∈ cols →
      (∀ c' ∈ cols, c'.name = c.name → c' = c) →
      getCell (cols.foldl (applyColumn sch fkMap i d) row) c.name =
        some (((fkMap (fkKey c.name fk)).get? i).getD Value.undef) := by
  intro cols
  induction cols with
  | nil =>
    intro row hc
    simp at hc
  | cons c0 rest ih =>
    intro row hc hnames
    rw [List.foldl_cons]
    by_cases hcr : c ∈ rest
    · exact ih _ hcr (fun c' hc' => hnames c' (List.mem_cons_of_mem c0 hc'))
    · have hc0 : c = c0 := by
        rcases List.mem_cons.mp hc with h | h
        · exact h
        · exact absurd h hcr
      subst hc0
      rw [foldl_applyColumn_preserves sch fkMap i d c.name rest _ ?_]
      · unfold applyColumn
        rw [if_neg (by simp [hai])]
        simp only [hval, hfkc]
        rw [getCell_setCell, if_pos rfl]
      · intro c' hc' hn
        exact absurd (hnames c' (List.mem_cons_of_mem c hc') hn ▸ hc') hcr

theorem nullRoll_eq_null_iff (c : Column) (d : Draw) (v : Value)
    (hnul : c.options.nullable = true) (hv : v ≠ Value.null) :
    (nullRoll c d v = Value.null ↔ d.roll ≤ (1 : ℚ) / 10) := by
  unfold nullRoll
  by_cases hr : d.roll ≤ (1 : ℚ) / 10
  · rw [if_pos ⟨hnul, hr⟩]
    exact iff_of_true rfl hr
  · rw [if_neg (fun hc => hr hc.2)]
    exact iff_of_false hv hr

theorem genValue_varchar_uuid (sch : Schema) (c : Column) (d : Draw)
    (htag : c.generator ∈ varcharFamily)
    (hcond : c.options.max ≥ 36 ∧ c.options.unique = true) :
    genValue sch c d = some (Value.uuidV (uuid4Str d.uuidSeed)) := by
  simp only [varcharFamily, List.mem_cons, List.not_mem_nil, or_false] at htag
  rcases htag with h | h | h | h <;>
  · unfold genValue
    rw [h]
    show (if c.options.max ≥ 36 ∧ c.options.unique = true then
        some (Value.uuidV (uuid4Str d.uuidSeed))
      else
        some (nullRoll c d (Value.strV (Randomizer.randomString
          (Randomizer.randomInt c.options.min (min (sch.maxCharLength : Int) c.options.max) d.r1)
          d.chars)))) = _
    rw [if_pos hcond]

theorem genValue_varchar_else (sch : Schema) (c : Column) (d : Draw)
    (htag : c.generator ∈ varcharFamily)
    (hcond : ¬(c.options.max ≥ 36 ∧ c.options.unique = true)) :
    genValue sch c d = some (nullRoll c d (Value.strV (Randomizer.randomString
      (Randomizer.randomInt c.options.min (min (sch.maxCharLength : Int) c.options.max) d.r1)
      d.chars))) := by
  simp only [varcharFamily, List.mem_cons, List.not_mem_nil, or_false] at htag
  rcases htag with h | h | h | h <;>
  · unfold genValue
    rw [h]
    show (if c.options.max ≥ 36 ∧ c.options.unique = true then
        some (Value.uuidV (uuid4Str d.uuidSeed))
      else
        some (nullRoll c d (Value.strV (Randomizer.randomString
          (Randomizer.randomInt c.options.min (min (sch.maxCharLength : Int) c.options.max) d.r1)
          d.chars)))) = _
    rw [if_neg hcond]

theorem applyColumn_gen (sch : Schema) (fkMap : String → List Value) (i : Nat)
    (d : String → Draw) (row : Row) (c : Column)
    (hval : c.values = none) (hfk : c.foreignKey = none)
    (hai : c.options.autoIncrement = false) (v : Value)
    (hgen : genValue sch c (d c.name) = some v) :
    applyColumn sch fkMap i d row c = setCell row c.name v := by
  unfold applyColumn
  rw [if_neg (by simp [hai])]
  simp only [hval, hfk, hgen]

/-- C1 counterexample: a table with `maxLines = 10` whose current row
count is already 50 satisfies the claim's assumption (`insert` reports
exactly the rows given), yet after the run the row count is 50, which
exceeds the computed target 10 — `fill` never deletes rows, so an
over-full table stays above its target. -/
theorem target_bound_cex :
    (∀ b rows, connOverfull.insertRes b rows ≤ rows.length)
    ∧ computeTarget tOverfull connOverfull.countLines = 10
    ∧ (generateData sch0 connOverfull tOverfull drawO0).1 = 50
    ∧ ¬((generateData sch0 connOverfull tOverfull drawO0).1
        ≤ computeTarget tOverfull connOverfull.countLines) := by
  have h1 : computeTarget tOverfull connOverfull.countLines = 10 := by decide
  have hgen : (generateData sch0 connOverfull tOverfull drawO0).1 = 50 := by
    have h2 : (generateData sch0 connOverfull tOverfull drawO0).1
        = (batchLoop sch0 connOverfull tOverfull drawO0
            (computeTarget tOverfull connOverfull.countLines) 0 connOverfull.countLines
            (fun _ => [])).1 := rfl
    rw [h2, batchLoop_noop sch0 connOverfull tOverfull drawO0 _ 0 connOverfull.countLines
      (fun _ => []) (by decide)]
    rfl
  refine ⟨fun b rows => le_rfl, h1, hgen, ?_⟩
  rw [hgen, h1]
  decide

/-- C1 (amended): whenever the connector's `insert` reports at most the
number of rows it was given, the row count `generateData` reaches — and
hence the count a successful `fill` reaches — never exceeds the larger of
the computed target and the initial row count.  (In particular it never
exceeds the target when the table starts at or below the target; a table
that starts above the target merely keeps its rows.) -/
theorem fill_count_le_max_target_current (sch : Schema) (conn : Connector)
    (t : TableDescriptor) (drawO : Nat → Nat → String → Draw)
    (hins : ∀ b rows, conn.insertRes b rows ≤ rows.length) :
    (generateData sch conn t drawO).1
      ≤ max (computeTarget t conn.countLines) conn.countLines
    ∧ ∀ (reset : Bool) (n : Nat), (fill sch conn t drawO reset).2 = Except.ok n →
        n ≤ max (computeTarget t conn.countLines) conn.countLines := by
  have hb := batchLoop_fst_le sch conn t drawO (computeTarget t conn.countLines) hins
    (computeTarget t conn.countLines - conn.countLines) 0 conn.countLines (fun _ => []) le_rfl
  have hgen : (generateData sch conn t drawO).1
      = (batchLoop sch conn t drawO (computeTarget t conn.countLines) 0 conn.countLines
          (fun _ => [])).1 := rfl
  constructor
  · rw [hgen]
    exact hb
  · intro reset n hok
    rw [fill_ok_count sch conn t drawO reset n hok, hgen]
    exact hb

/-- Witness for the amended C1 at a concrete table and connector. -/
theorem fill_count_le_max_target_current_witness :
    (generateData sch0 connW1 tW1 drawO0).1
      ≤ max (computeTarget tW1 connW1.countLines) connW1.countLines :=
  (fill_count_le_max_target_current sch0 connW1 tW1 drawO0 (fun b rows => le_rfl)).1

/-- C5: when a table supplies only the deprecated `lines` field, the
spec-modelled configuration rule maps it to `maxLines`, and the target
the generator then computes equals the value of `lines`, whatever the
current row count. -/
theorem lines_alias_maps_to_maxLines (t : TableDescriptor) (n cur : Nat)
    (hl : t.lines = some n) (hm : t.maxLines = none) (ha : t.addLines = none) :
    computeTarget (applyLinesAlias t) cur = n := by
  unfold applyLinesAlias
  rw [if_pos ⟨by rw [hm]; rfl, by rw [ha]; rfl⟩]
  unfold computeTarget truthy
  by_cases hn : n = 0
  · subst hn
    simp [hl, ha]
  · simp [hl, ha, hn]

/-- Witness for C5: `lines = 5` alone yields target 5 with 7 current rows. -/
theorem lines_alias_maps_to_maxLines_witness :
    computeTarget (applyLinesAlias tLines) 7 = 5 :=
  lines_alias_maps_to_maxLines tLines 5 7 rfl rfl rfl

/-- C3: if foreign-key resolution for the current batch throws (a
non-nullable foreign-key column got an empty pool), the batch loop stops
right there: the final count is exactly the count accumulated by earlier
batches (rows already inserted are kept), the remaining events are only
the foreign-key fetches of the failed resolution followed by the logged
warning, no row of the current batch is synthesized or inserted, and the
loop returns normally instead of propagating the exception. -/
theorem fk_starvation_aborts_batch (sch : Schema) (conn : Connector) (t : TableDescriptor)
    (drawO : Nat → Nat → String → Draw) (target b cur : Nat) (fkMap : String → List Value)
    (evs : List Event) (msg : String)
    (h : cur < target)
    (heq : getForeignKeyValues conn t.name b (min 1000 (target - cur)) t.columns fkMap
      = (evs, Except.error msg)) :
    batchLoop sch conn t drawO target b cur fkMap = (cur, evs ++ [Event.warnEv msg])
    ∧ (∀ e ∈ (batchLoop sch conn t drawO target b cur fkMap).2, isInsertEv e = false)
    ∧ Event.warnEv msg ∈ (batchLoop sch conn t drawO target b cur fkMap).2 := by
  have hrun := batchLoop_starved sch conn t drawO target b cur fkMap evs msg h heq
  refine ⟨hrun, ?_, ?_⟩
  · rw [hrun]
    intro e he
    rcases List.mem_append.mp he with hl | hr
    · exact getForeignKeyValues_not_insert conn t.name b (min 1000 (target - cur))
        t.columns fkMap evs _ heq e hl
    · simp at hr
      subst hr
      rfl
  · rw [hrun]
    simp

/-- Witness for C3: one non-nullable foreign-key column and an
empty-pool connector abort the first batch with the starvation warning. -/
theorem fk_starvation_aborts_batch_witness :
    Event.warnEv (starvationMsg ⟨"users", "id", none⟩)
      ∈ (batchLoop sch0 connEmptyPool tStarve drawO0 5 0 0 (fun _ => [])).2 :=
  (fk_starvation_aborts_batch sch0 connEmptyPool tStarve drawO0 5 0 0 (fun _ => [])
    [Event.fkFetchEv 0 ⟨"pets", "owner", "users", "id", 5, false, none⟩]
    (starvationMsg ⟨"users", "id", none⟩) (by decide) (by rfl)).2.2

/-- C2: `generateData` terminates for every connector (its insert count
is a `Nat`, i.e. non-negative): the number of insert calls in a run is
bounded by `target - currentRows`, because every batch either strictly
raises the row count or stalls and aborts with a warning.  In particular,
with a connector whose `insert` always reports 0 and a batch that
resolves its foreign keys, the run performs exactly one insert call and
logs the stall warning. -/
theorem generateData_terminates_and_stalls (sch : Schema) (conn : Connector)
    (t : TableDescriptor) (drawO : Nat → Nat → String → Draw) :
    ((generateData sch conn t drawO).2.filter isInsertEv).length
      ≤ computeTarget t conn.countLines - conn.countLines
    ∧ ∀ (evs : List Event) (m : String → List Value),
        (∀ b rows, conn.insertRes b rows = 0) →
        conn.countLines < computeTarget t conn.countLines →
        getForeignKeyValues conn t.name 0
          (min 1000 (computeTarget t conn.countLines - conn.countLines)) t.columns
          (fun _ => []) = (evs, Except.ok m) →
        ((generateData sch conn t drawO).2.filter isInsertEv).length = 1
        ∧ Event.warnEv (stallMsg t.name) ∈ (generateData sch conn t drawO).2 := by
  have htr : (generateData sch conn t drawO).2
      = Event.countLinesEv t.name :: (batchLoop sch conn t drawO
          (computeTarget t conn.countLines) 0 conn.countLines (fun _ => [])).2 := rfl
  constructor
  · have hb := batchLoop_insert_count sch conn t drawO (computeTarget t conn.countLines)
      (computeTarget t conn.countLines - conn.countLines) 0 conn.countLines (fun _ => []) le_rfl
    rw [htr]
    simpa [List.filter_cons, isInsertEv] using hb
  · intro evs m hz hlt heq
    have hrun := batchLoop_stall_run sch conn t drawO (computeTarget t conn.countLines) 0
      conn.countLines (fun _ => []) evs m hz hlt heq
    have hno := getForeignKeyValues_no_insert conn t.name 0
      (min 1000 (computeTarget t conn.countLines - conn.countLines)) t.columns (fun _ => [])
    rw [heq] at hno
    simp only [] at hno
    constructor
    · rw [htr, hrun]
      simp [List.filter_cons, List.filter_append, hno, isInsertEv]
    · rw [htr, hrun]
      simp

/-- Witness for C2: an always-zero connector over an empty five-row
table stalls after exactly one insert call. -/
theorem generateData_terminates_and_stalls_witness :
    ((generateData sch0 connStall tW2 drawO0).2.filter isInsertEv).length = 1
    ∧ Event.warnEv (stallMsg tW2.name) ∈ (generateData sch0 connStall tW2 drawO0).2 :=
  (generateData_terminates_and_stalls sch0 connStall tW2 drawO0).2 [] (fun _ => [])
    (fun _ _ => rfl) (by decide) rfl

/-- C6: every insert event of a `generateData` run carries exactly
`min 1000 (target - currentRows)` rows, where `currentRows` is the row
count at the start of that batch; in particular no insert call ever
carries more than 1000 rows. -/
theorem insert_batch_size_eq_min (sch : Schema) (conn : Connector) (t : TableDescriptor)
    (drawO : Nat → Nat → String → Draw) (b' : Nat) (tn : String) (rows : List Row)
    (curB : Nat)
    (hmem : Event.insertEv b' tn rows curB ∈ (generateData sch conn t drawO).2) :
    rows.length = min 1000 (computeTarget t conn.countLines - curB)
    ∧ rows.length ≤ 1000 := by
  have htr : (generateData sch conn t drawO).2
      = Event.countLinesEv t.name :: (batchLoop sch conn t drawO
          (computeTarget t conn.countLines) 0 conn.countLines (fun _ => [])).2 := rfl
  rw [htr] at hmem
  rcases List.mem_cons.mp hmem with h | h
  · simp at h
  · have hs := batchLoop_insert_size sch conn t drawO (computeTarget t conn.countLines)
      (computeTarget t conn.countLines - conn.countLines) 0 conn.countLines (fun _ => [])
      le_rfl b' tn rows curB h
    exact ⟨hs, by omega⟩

/-- Witness for C6: the single batch of a three-row run carries
`min 1000 3` rows. -/
theorem insert_batch_size_eq_min_witness :
    (buildRows sch0 tW6.columns (fun _ => []) (min 1000 (3 - 0)) (drawO0 0)).length
      = min 1000 (computeTarget tW6 connStall.countLines - 0)
    ∧ (buildRows sch0 tW6.columns (fun _ => []) (min 1000 (3 - 0)) (drawO0 0)).length
      ≤ 1000 := by
  refine insert_batch_size_eq_min sch0 connStall tW6 drawO0 0 tW6.name
    (buildRows sch0 tW6.columns (fun _ => []) (min 1000 (3 - 0)) (drawO0 0)) 0 ?_
  have hrun := batchLoop_stall_run sch0 connStall tW6 drawO0 3 0 0 (fun _ => [])
    [] (fun _ => []) (fun _ _ => rfl) (by decide) rfl
  have htr : (generateData sch0 connStall tW6 drawO0).2
      = Event.countLinesEv tW6.name :: (batchLoop sch0 connStall tW6 drawO0 3 0 0
          (fun _ => [])).2 := rfl
  rw [htr, hrun]
  simp

/-- C7: a `fill` with `reset = false` on a table whose current row count
is at or above the computed target performs no batch: its trace contains
no insert call and no foreign-key fetch. -/
theorem fill_noop_when_full (sch : Schema) (conn : Connector) (t : TableDescriptor)
    (drawO : Nat → Nat → String → Draw)
    (hfull : computeTarget t conn.countLines ≤ conn.countLines) :
    ∀ e ∈ (fill sch conn t drawO false).1, isInsertEv e = false ∧ isFkFetchEv e = false := by
  intro e he
  have hgen : (generateData sch conn t drawO).2 = [Event.countLinesEv t.name] := by
    have h2 : (generateData sch conn t drawO).2
        = Event.countLinesEv t.name :: (batchLoop sch conn t drawO
            (computeTarget t conn.countLines) 0 conn.countLines (fun _ => [])).2 := rfl
    rw [h2, batchLoop_noop sch conn t drawO _ 0 conn.countLines (fun _ => []) hfull]
  rcases hb : runHooks conn (t.before.getD []) with ⟨bevs, oeb⟩
  rcases hA : runHooks conn (t.after.getD []) with ⟨aevs, oea⟩
  unfold fill at he
  rw [hb, hA] at he
  have hbev : ∀ e, e ∈ bevs → isInsertEv e = false ∧ isFkFetchEv e = false := by
    intro e hmem
    have hm : e ∈ (runHooks conn (t.before.getD [])).1 := by rw [hb]; exact hmem
    obtain ⟨q, rfl⟩ := runHooks_events conn _ e hm
    exact ⟨rfl, rfl⟩
  have haev : ∀ e, e ∈ aevs → isInsertEv e = false ∧ isFkFetchEv e = false := by
    intro e hmem
    have hm : e ∈ (runHooks conn (t.after.getD [])).1 := by rw [hA]; exact hmem
    obtain ⟨q, rfl⟩ := runHooks_events conn _ e hm
    exact ⟨rfl, rfl⟩
  cases oeb with
  | some e' =>
    simp [hgen, List.mem_append, List.mem_cons] at he
    rcases he with he | he
    · subst he
      exact ⟨rfl, rfl⟩
    · exact hbev e he
  | none =>
    cases oea with
    | some e' =>
      simp [hgen, List.mem_append, List.mem_cons] at he
      rcases he with he | he | he | he
      · subst he
        exact ⟨rfl, rfl⟩
      · exact hbev e he
      · subst he
        exact ⟨rfl, rfl⟩
      · exact haev e he
    | none =>
      simp [hgen, List.mem_append, List.mem_cons] at he
      rcases he with he | he | he | he
      · subst he
        exact ⟨rfl, rfl⟩
      · exact hbev e he
      · subst he
        exact ⟨rfl, rfl⟩
      · exact haev e he

/-- Witness for C7: a table at 5 rows with target 3 keeps a trace of
hook-free log and count events only. -/
theorem fill_noop_when_full_witness :
    isInsertEv (Event.logEv ("fill: " ++ tFull.name)) = false
    ∧ isFkFetchEv (Event.logEv ("fill: " ++ tFull.name)) = false := by
  refine fill_noop_when_full sch0 connFull tFull drawO0 (by decide)
    (Event.logEv ("fill: " ++ tFull.name)) ?_
  have hgen : (generateData sch0 connFull tFull drawO0).2 = [Event.countLinesEv tFull.name] := by
    have h2 : (generateData sch0 connFull tFull drawO0).2
        = Event.countLinesEv tFull.name :: (batchLoop sch0 connFull tFull drawO0
            (computeTarget tFull connFull.countLines) 0 connFull.countLines (fun _ => [])).2 :=
      rfl
    rw [h2, batchLoop_noop sch0 connFull tFull drawO0 _ 0 connFull.countLines (fun _ => [])
      (by decide)]
  unfold fill
  rw [show runHooks connFull (tFull.before.getD []) = ([], none) from rfl,
    show runHooks connFull (tFull.after.getD []) = ([], none) from rfl]
  simp [hgen]

/-- C4 counterexample: a nullable, unique `varchar(36)` column takes the
UUID branch, which performs no nullable-null replacement at all — even
with a `Math.random()` roll of 0 (well below 0.1) the synthesized value
is the UUID, never null.  The null-replacement step therefore does not
apply uniformly to all nullable generated columns. -/
theorem uuid_branch_never_null_cex :
    cUuidNul.options.nullable = true
    ∧ dRoll0.roll ≤ (1 : ℚ) / 10
    ∧ genValue sch0 cUuidNul dRoll0 = some (Value.uuidV (uuid4Str 0))
    ∧ genValue sch0 cUuidNul dRoll0 ≠ some Value.null := by
  refine ⟨rfl, by show (0 : ℚ) ≤ 1 / 10; norm_num, rfl, by decide⟩

/-- C4 (amended): for every nullable column synthesized by a recognized
generator tag other than `enum`, and other than the UUID branch of the
varchar family (`max ≥ 36` with `unique`), the synthesized value is
replaced with null exactly when the `Math.random()` roll is at most 0.1;
in the UUID branch the value is never replaced with null (see the
counterexample). -/
theorem nullable_roll_except_enum_and_uuid (sch : Schema) (c : Column) (d : Draw)
    (htag : c.generator ∈ nonEnumTags)
    (hnul : c.options.nullable = true) :
    (¬(c.generator ∈ varcharFamily ∧ c.options.max ≥ 36 ∧ c.options.unique = true) →
      ∃ v, genValue sch c d = some v ∧ (v = Value.null ↔ d.roll ≤ (1 : ℚ) / 10))
    ∧ ((c.generator ∈ varcharFamily ∧ c.options.max ≥ 36 ∧ c.options.unique = true) →
      genValue sch c d = some (Value.uuidV (uuid4Str d.uuidSeed))
      ∧ genValue sch c d ≠ some Value.null) := by
  constructor
  · intro hnuuid
    simp only [nonEnumTags, List.mem_cons, List.not_mem_nil, or_false] at htag
    rcases htag with h|h|h|h|h|h|h|h|h|h|h|h|h|h|h|h|h|h|h|h|h|h|h|h|h|h|h|h|h|h
    all_goals first
      | (unfold genValue
         rw [h]
         exact ⟨_, rfl, nullRoll_eq_null_iff c d _ hnul (by simp)⟩)
      | (have hvf : c.generator ∈ varcharFamily := by rw [h]; decide
         have hcond : ¬(c.options.max ≥ 36 ∧ c.options.unique = true) :=
           fun hc => hnuuid ⟨hvf, hc⟩
         rw [genValue_varchar_else sch c d hvf hcond]
         exact ⟨_, rfl, nullRoll_eq_null_iff c d _ hnul (by simp)⟩)
  · intro hcond
    have hu := genValue_varchar_uuid sch c d hcond.1 hcond.2
    rw [hu]
    exact ⟨rfl, by simp⟩

/-- Witness for the amended C4: a nullable `int` column with roll 0 is
null, the roll threshold holding. -/
theorem nullable_roll_except_enum_and_uuid_witness :
    ∃ v, genValue sch0 cIntNul dRoll0 = some v
      ∧ (v = Value.null ↔ dRoll0.roll ≤ (1 : ℚ) / 10) :=
  (nullable_roll_except_enum_and_uuid sch0 cIntNul dRoll0 (by decide) rfl).1 (by decide)

/-- C8: a varchar-family column without a `values` override or foreign
key synthesizes a version-4 UUID exactly when `max ≥ 36` and `unique` is
set — a `uuidV` value, never a `strV` value produced by the bounded
string generator — and otherwise assigns the bounded random string whose
length argument is `randomInt(min, min(schema.maxCharLength, max))`,
which lies in that interval whenever it is non-empty (subject to the
separate nullable-null roll). -/
theorem varchar_uuid_vs_bounded_string (sch : Schema) (fkMap : String → List Value)
    (i : Nat) (d : String → Draw) (row : Row) (c : Column)
    (hval : c.values = none) (hfk : c.foreignKey = none)
    (hai : c.options.autoIncrement = false)
    (htag : c.generator ∈ varcharFamily) :
    ((c.options.max ≥ 36 ∧ c.options.unique = true) →
      applyColumn sch fkMap i d row c
        = setCell row c.name (Value.uuidV (uuid4Str (d c.name).uuidSeed))
      ∧ isUuid4 (uuid4Str (d c.name).uuidSeed) = true
      ∧ ∀ str, Value.uuidV (uuid4Str (d c.name).uuidSeed) ≠ Value.strV str)
    ∧ (¬(c.options.max ≥ 36 ∧ c.options.unique = true) →
      applyColumn sch fkMap i d row c
        = setCell row c.name (nullRoll c (d c.name) (Value.strV (Randomizer.randomString
            (Randomizer.randomInt c.options.min (min (sch.maxCharLength : Int) c.options.max)
              (d c.name).r1) (d c.name).chars)))
      ∧ (Randomizer.randomString
          (Randomizer.randomInt c.options.min (min (sch.maxCharLength : Int) c.options.max)
            (d c.name).r1) (d c.name).chars).length
        = (Randomizer.randomInt c.options.min (min (sch.maxCharLength : Int) c.options.max)
            (d c.name).r1).toNat
      ∧ (c.options.min ≤ min (sch.maxCharLength : Int) c.options.max →
          c.options.min ≤ Randomizer.randomInt c.options.min
            (min (sch.maxCharLength : Int) c.options.max) (d c.name).r1
          ∧ Randomizer.randomInt c.options.min (min (sch.maxCharLength : Int) c.options.max)
            (d c.name).r1 ≤ min (sch.maxCharLength : Int) c.options.max)) := by
  constructor
  · intro hcond
    refine ⟨applyColumn_gen sch fkMap i d row c hval hfk hai _
      (genValue_varchar_uuid sch c (d c.name) htag hcond), isUuid4_uuid4Str _, ?_⟩
    intro str
    simp
  · intro hcond
    refine ⟨applyColumn_gen sch fkMap i d row c hval hfk hai _
      (genValue_varchar_else sch c (d c.name) htag hcond),
      Randomizer.randomString_length _ _, fun hle => Randomizer.randomInt_mem _ _ _ hle⟩

/-- Witness for C8: a unique `char(40)` column receives a well-formed
version-4 UUID value. -/
theorem varchar_uuid_vs_bounded_string_witness :
    applyColumn sch0 (fun _ => []) 0 (fun _ => {}) [] cW8
      = setCell [] cW8.name (Value.uuidV (uuid4Str 0))
    ∧ isUuid4 (uuid4Str 0) = true := by
  have h := (varchar_uuid_vs_bounded_string sch0 (fun _ => []) 0 (fun _ => {}) [] cW8
    rfl rfl rfl (by decide)).1 (by decide)
  exact ⟨h.1, h.2.1⟩

/-- C9: when foreign-key resolution of a batch succeeds, a foreign-key
column (without a `values` override, not auto-increment) of the row at
index `i` receives exactly the `i`-th entry of the pool that
`getValuesForForeignKeys` returned for that batch — never an
independently synthesized value — and when the pool is shorter than the
batch, rows at or beyond the pool length receive the `undefined` value
instead of the batch being truncated. -/
theorem fk_column_takes_pool_entry (sch : Schema) (conn : Connector) (tname : String)
    (b rr i : Nat) (cols : List Column) (m0 m : String → List Value) (evs : List Event)
    (d : String → Draw) (c : Column) (fk : ForeignKey)
    (hc : c ∈ cols) (hval : c.values = none) (hfkc : c.foreignKey = some fk)
    (hai : c.options.autoIncrement = false)
    (hnames : ∀ c' ∈ cols, c'.name = c.name → c' = c)
    (hkeys : ∀ c' ∈ cols, ∀ fk', c'.foreignKey = some fk' →
      fkKey c'.name fk' = fkKey c.name fk → c' = c)
    (hok : getForeignKeyValues conn tname b rr cols m0 = (evs, Except.ok m)) :
    getCell (buildRow sch cols m i d) c.name
      = some (((conn.fkValues b
          ⟨tname, c.name, fk.table, fk.column, rr, c.options.unique, fk.«where»⟩).get? i).getD
          Value.undef)
    ∧ ((conn.fkValues b
        ⟨tname, c.name, fk.table, fk.column, rr, c.options.unique, fk.«where»⟩).length ≤ i →
        getCell (buildRow sch cols m i d) c.name = some Value.undef) := by
  have hmap := getForeignKeyValues_ok_map conn tname b rr c fk hfkc cols m0 evs m hc hkeys hok
  have hcell := buildRow_fk_cell sch m i d c fk hval hfkc hai cols [] hc hnames
  have hb : buildRow sch cols m i d = cols.foldl (applyColumn sch m i d) [] := rfl
  rw [hb, hcell, hmap]
  refine ⟨rfl, fun hlen => ?_⟩
  rw [List.get?_eq_none.mpr hlen]
  rfl

/-- Witness for C9: a pool of one value lands in row 0 of the batch. -/
theorem fk_column_takes_pool_entry_witness :
    getCell (buildRow sch0 [cFkW9] mW9 0 (fun _ => {})) cFkW9.name
      = some (((connW9.fkValues 0
          ⟨"t9", "uid", "users", "id", 2, false, none⟩).get? 0).getD Value.undef) :=
  (fk_column_takes_pool_entry sch0 connW9 "t9" 0 2 0 [cFkW9] (fun _ => []) mW9
    [Event.fkFetchEv 0 ⟨"t9", "uid", "users", "id", 2, false, none⟩] (fun _ => {})
    cFkW9 ⟨"users", "id", none⟩ (List.mem_singleton.mpr rfl) rfl rfl rfl
    (by intro c' hc' _; simpa using hc')
    (by intro c' hc' fk' _ _; simpa using hc')
    rfl).1

/-- C10: whatever the connector does during generation — including runs
whose batch loop aborts on starvation or a stall — as long as the hook
statements themselves succeed, `fill` runs the table's `after` statements
in order after `generateData` returns, and returns normally with the
reached row count: aborts inside the batch loop skip only the remaining
batches, never the after hooks. -/
theorem after_hooks_run_despite_abort (sch : Schema) (conn : Connector)
    (t : TableDescriptor) (drawO : Nat → Nat → String → Draw) (reset : Bool)
    (hbq : ∀ q ∈ t.before.getD [], conn.rawQuery q = Except.ok ())
    (haq : ∀ q ∈ t.after.getD [], conn.rawQuery q = Except.ok ()) :
    (fill sch conn t drawO reset).1
      = ((if reset then [Event.logEv ("empty: " ++ t.name), Event.emptyTableEv t.name]
          else []) ++ [Event.logEv ("fill: " ++ t.name)])
        ++ (t.before.getD []).map Event.rawQueryEv
        ++ (generateData sch conn t drawO).2
        ++ (t.after.getD []).map Event.rawQueryEv
    ∧ (fill sch conn t drawO reset).2 = Except.ok (generateData sch conn t drawO).1 := by
  unfold fill
  rw [runHooks_ok conn (t.before.getD []) hbq, runHooks_ok conn (t.after.getD []) haq]
  simp [List.append_assoc]

/-- Witness for C10: a stalling run still executes the table's single
`after` statement at the end of its trace. -/
theorem after_hooks_run_despite_abort_witness :
    (fill sch0 connStall tW10 drawO0 false).1
      = ((if false then [Event.logEv ("empty: " ++ tW10.name), Event.emptyTableEv tW10.name]
          else []) ++ [Event.logEv ("fill: " ++ tW10.name)])
        ++ (tW10.before.getD []).map Event.rawQueryEv
        ++ (generateData sch0 connStall tW10 drawO0).2
        ++ (tW10.after.getD []).map Event.rawQueryEv :=
  (after_hooks_run_despite_abort sch0 connStall tW10 drawO0 false
    (by intro q hq; simp [tW10] at hq)
    (by intro q hq; exact rfl)).1

end MySqlDataGen
